import Mathlib

/-!
Verification of the `aiu-trace-analyzer` event-processing pipeline.

Shallow embedding conventions:
* Python floats are modelled as exact rationals (`ℚ`);
* Python strings are Lean `String`s; `str.find(sub) != -1` is substring
  containment, i.e. `sub.data <:+: str.data`;
* Python dicts are modelled as association lists or as partial maps
  (`α → Option β`), whichever matches the use in the source;
* fallible Python code (raising exceptions) is modelled with `Except`/`Option`.
-/

namespace AiuTrace

/-! ## RCUTableFingerprint (pipeline/rcu_utilization.py)

A fingerprint holds the concatenated hash string `fprint_data`, the number of
items `dataitems`, and the accumulated `totaltime`.  Only these three fields
are read by `similarity`, so the embedding keeps just them. -/

structure RCUFingerprint where
  fprint_data : String
  dataitems : ℕ
  totaltime : ℚ
deriving DecidableEq

/-- Python `hay.find(pat) != -1`: `pat` occurs as a contiguous substring. -/
def strFindHit (hay pat : String) : Bool :=
  decide (pat.data <:+: hay.data)

/-- `sim_weights["sequence"]` -/
def simWeightSequence : ℚ := 1 / 2
/-- `sim_weights["tab_len"]` -/
def simWeightTabLen : ℚ := 1 / 2
/-- `sim_weights["total_time"]` -/
def simWeightTotalTime : ℚ := 1 / 2

/-- `RCUTableFingerprint.similarity(self, other)`: `self` is the observed
event-stream fingerprint, `other` the ideal-cycles-table fingerprint.
Note the two early `return 0.0` exits in the source. -/
def similarity (self other : RCUFingerprint) : ℚ :=
  let sim1 := simWeightSequence *
    (if strFindHit other.fprint_data self.fprint_data then 1 else 1 / 2)
  if self.dataitems > other.dataitems then 0
  else
    let sim2 := sim1 + simWeightTabLen * ((self.dataitems : ℚ) / (other.dataitems : ℚ))
    if other.totaltime > self.totaltime then 0
    else sim2 + simWeightTotalTime * (other.totaltime / self.totaltime)

/-- Modelled from the spec: the similarity as the claim words it, a weighted
sum of three independent terms in which a failing count or time criterion
zeroes only its own term.  Used only to compare against `similarity`. -/
def similaritySpecStated (self other : RCUFingerprint) : ℚ :=
  simWeightSequence *
    (if strFindHit other.fprint_data self.fprint_data then 1 else 1 / 2)
  + simWeightTabLen *
    (if self.dataitems ≤ other.dataitems then (self.dataitems : ℚ) / (other.dataitems : ℚ) else 0)
  + simWeightTotalTime *
    (if other.totaltime ≤ self.totaltime then other.totaltime / self.totaltime else 0)

/-! ## compute_utilization (pipeline/rcu_utilization.py)

`compute_utilization` is embedded for the branch where the event is a
`Cmpt Exec` kernel `X` event with a matched fingerprint; the ideal duration
obtained from the matched table is passed in as `ideal_dur`.  The counter
synthesis `MultiRCUUtilizationContext.make_utilization_event` is embedded
separately, as in the source. -/

structure KernelEventInfo where
  ts : ℚ
  dur : ℚ
  pid : ℤ
deriving DecidableEq

structure CounterEvent where
  ph : String
  ts : ℚ
  pid : ℤ
  name : String
  unit : String
  value : ℚ
  dur : Option ℚ
deriving DecidableEq

/-- `RCU_pt_util_counter_name` -/
def ptUtilCounterName : String := "PT Active"
/-- `RCU_pt_util_counter_unit` -/
def ptUtilCounterUnit : String := "Percent"

/-- `MultiRCUUtilizationContext.make_utilization_event(event, utilization)`:
a counter event at `event.ts` carrying `utilization`, plus a reset-to-zero
counter at `event.ts + event.dur` only when `utilization > 0`. -/
def make_utilization_event (ev : KernelEventInfo) (utilization : ℚ) :
    List CounterEvent :=
  ⟨"C", ev.ts, ev.pid, ptUtilCounterName, ptUtilCounterUnit, utilization, some ev.dur⟩ ::
    (if utilization > 0 then
      [⟨"C", ev.ts + ev.dur, ev.pid, ptUtilCounterName, ptUtilCounterUnit, 0, none⟩]
    else [])

/-- Python `abs(ideal_dur/cmpt_dur) if not isclose(cmpt_dur, 0.0, abs_tol=1e-9)
else 0.0`; `isclose(x, 0.0, abs_tol=1e-9)` reduces to `|x| ≤ 1e-9`. -/
def rawUtilization (ideal_dur cmpt_dur : ℚ) : ℚ :=
  if |cmpt_dur| ≤ 1 / 1000000000 then 0 else |ideal_dur / cmpt_dur|

/-- The per-event outputs of `compute_utilization` relevant to the kernel
branch: the clamped utilization, the `core used` flag, whether the
`util_100` warning counter was incremented, the `pt_active` annotation
(absent when the utilization is zero), and the emitted counter events. -/
structure UtilizationOutcome where
  utilization : ℚ
  core_used : Bool
  util_100 : Bool
  pt_active : Option ℚ
  counters : List CounterEvent

/-- `compute_utilization(event, context)`, kernel branch, with the ideal
duration already looked up. -/
def compute_utilization_core (ideal_dur : ℚ) (ev : KernelEventInfo) :
    UtilizationOutcome :=
  let cmpt_dur := ev.dur
  let utilization := rawUtilization ideal_dur cmpt_dur
  let core_used : Bool := utilization > 0
  let util100 : Bool := utilization > 1
  let utilization := if utilization > 1 then 1 else utilization
  { utilization := utilization
    core_used := core_used
    util_100 := util100
    pt_active := if utilization > 0 then some utilization else none
    counters := make_utilization_event ev (utilization * 100) }

/-! ## tsx_32bit_local_correction (pipeline/normalize.py)

The loop walks `TS1..TS5` in order, keeping the previously corrected value
in `prev` (initialised to `-(2^48)`), and adds `2^32` to any value smaller
than `prev`.  `args["TSxOF"]` is set to the first field that triggered a
bump. -/

/-- The `prev` initialisation `-(1 << 48)`. -/
def tsxInitPrev : ℤ := -(2 ^ 48)

/-- The correction loop of `tsx_32bit_local_correction`, over the list of
`TS1..TS5` integer values. -/
def tsxLocalCorrection : ℤ → List ℤ → List ℤ
  | _, [] => []
  | prev, c :: rest =>
      let c2 := if c < prev then c + 2 ^ 32 else c
      c2 :: tsxLocalCorrection c2 rest

/-- Index of the first field whose value is bumped (what gets recorded in
`args["TSxOF"]`). -/
def tsxOverflowIdx : ℤ → List ℤ → Option ℕ
  | _, [] => none
  | prev, c :: rest =>
      if c < prev then some 0
      else (tsxOverflowIdx c rest).map Nat.succ

/-- Correction of the `TS1..TS5` sequence of one event. -/
def tsxCorrectTS (l : List ℤ) : List ℤ := tsxLocalCorrection tsxInitPrev l

/-- The `TSxOF` index for the `TS1..TS5` sequence of one event. -/
def tsxOF (l : List ℤ) : Option ℕ := tsxOverflowIdx tsxInitPrev l

/-- The args key name recorded for an overflow at position `i`. -/
def tsFieldName (i : ℕ) : String := "TS" ++ toString (i + 1)

/-! ## Second-pass classification (pipeline/categorize.py)

`EventClass` is the closed enumeration of the source.  The dialect
predicates `PipelineContextTool.is_acc_event` / `is_acc_kernel` and the
bucket key `get_context_id` live in `pipeline/tools.py`, which is not part
of the provided sources; they are abstracted as precomputed fields of the
event record. -/

inductive EventClass
  | OTHER | COMPUTE_PREP | COMPUTE_EXEC | DATA_IN | DATA_OUT | SEN_DATA_CONVERT
  | MAIU_BARRIER | MAIU_WIREUP | ROUNDTRIP_FLEX | ROUNDTRIP_AIU
  | MAIU_PROTOCOL_SERIAL
  | MAIU_HDMA_PROTOCOL_WAIT_DATA | MAIU_HDMA_PROTOCOL_WAIT_ACK
  | MAIU_HDMA_PROTOCOL_SIGNAL_DATA | MAIU_HDMA_PROTOCOL_SIGNAL_ACK
  | MAIU_HDMA_PROTOCOL_MONITOR_NOTICE
  | MAIU_HDMA_PROTOCOL_SEND_DATA | MAIU_HDMA_PROTOCOL_RECV_DATA
  | MAIU_P2PRDMA_PROTOCOL_SEND_DATA | MAIU_P2PRDMA_PROTOCOL_RECV_DATA
  | MAIU_PROTOCOL_SEND_DATA | MAIU_PROTOCOL_RECV_DATA
deriving DecidableEq

structure CatEvent where
  ts : ℚ
  /-- abstraction of `PipelineContextTool.is_acc_event(event)` -/
  is_acc : Bool
  /-- abstraction of `PipelineContextTool.is_acc_kernel(event)` (the dialect
  predicate that classifies an event as `COMPUTE_EXEC` / `Cmpt Exec`) -/
  is_acc_kernel : Bool
  /-- abstraction of `PipelineContextTool.get_context_id(event)` (batch / job
  correlation bucket) -/
  batch : ℕ
  /-- `event["args"]["class"]` as set during the collection pass -/
  cls : EventClass

/-- `EventCategorizerContext` state touched by `collect_stats` /
`second_pass_classify`: the global minimum timestamp and, per batch, the
`(min, max)` timestamps of accelerator kernel events. -/
structure CategorizerStats where
  first_ts : ℚ
  queues : ℕ → Option (ℚ × ℚ)

/-- `1e99`, the initialisation of `first_ts` and of the per-batch min. -/
def catBig : ℚ := 10 ^ 99

def initCategorizerStats : CategorizerStats :=
  { first_ts := catBig, queues := fun _ => none }

/-- `EventCategorizerContext.collect_stats(event)` (called on every `X`
event). -/
def collect_stats (s : CategorizerStats) (ev : CatEvent) : CategorizerStats :=
  let s1 := { s with first_ts := min s.first_ts ev.ts }
  if ev.is_acc_kernel then
    let p := (s1.queues ev.batch).getD (catBig, -catBig)
    { s1 with queues := fun b =>
        if b = ev.batch then some (min p.1 ev.ts, max p.2 ev.ts) else s1.queues b }
  else s1

/-- `EventCategorizerContext.second_pass_classify(event)`. -/
def second_pass_classify (s : CategorizerStats) (ev : CatEvent) : EventClass :=
  if ev.is_acc = false then ev.cls
  else
    match s.queues ev.batch with
    | none => ev.cls
    | some (first_comp, last_comp) =>
        if ev.ts > first_comp ∧ ev.ts < last_comp then
          if ev.cls = .DATA_OUT then .MAIU_PROTOCOL_SEND_DATA
          else if ev.cls = .DATA_IN then .MAIU_PROTOCOL_RECV_DATA
          else ev.cls
        else ev.cls

/-- The promotion applied inside the compute window. -/
def promoteDataClass : EventClass → EventClass
  | .DATA_OUT => .MAIU_PROTOCOL_SEND_DATA
  | .DATA_IN => .MAIU_PROTOCOL_RECV_DATA
  | c => c

/-! ## Ideal-cycles table insertion (pipeline/rcu_utilization.py)

`RCUUtilizationContext._process_table_line`, data-line branch: after the
regex gates (`_data_pattern` matches, `_ignore_pattern` does not, the name is
not a `_non_kernel_names` row) the line has been split into the kernel base
name (the part before the `-opCat`/`-NA` category suffix) and the parsed
cycle count.  The current table is a Python dict, modelled as an
insertion-ordered association list with distinct keys. -/

/-- Python `key in table` / `table[key]` on the insertion-ordered table. -/
def tableLookup (tbl : List (String × ℕ)) (k : String) : Option ℕ :=
  (tbl.find? (fun p => p.1 = k)).map (·.2)

/-- The `current_table` update for one accepted data line: returns the new
table and whether the duplicate-entry warning is logged. -/
def processDataLine (tbl : List (String × ℕ)) (kernelBase : String)
    (cycles : ℕ) : List (String × ℕ) × Bool :=
  let kernel := kernelBase ++ " Cmpt Exec"
  match tableLookup tbl kernel with
  | none => (if cycles ≠ 0 then tbl ++ [(kernel, cycles)] else tbl, false)
  | some old => (tbl, decide (cycles ≠ old))

/-! ## Launch-flow collection (pipeline/flow_launch.py)

`LaunchFLowContext.update_last_ts(qid, event)`: the per-correlation record
keeps `last_ts`, `last_pid_tid`, an optional `schedwait` event and the last
matching kernel event.  Only the fields read by `update_last_ts` are
embedded. -/

structure FlowKernelEvent where
  ts : ℚ
  dur : ℚ
  pid : ℤ
  tid : ℤ
deriving DecidableEq

structure FlowRecord where
  last_ts : ℚ
  last_pid_tid : ℤ × ℤ
  /-- `(ts, dur)` of the recorded `ScheduleWait` event, when present -/
  schedwait : Option (ℚ × ℚ)
  last_event : Option FlowKernelEvent
deriving DecidableEq

/-- `update_last_ts`: returns the (possibly updated) record and whether the
out-of-range warning is logged; the closing
`assert self.queues[qid]["last_ts"] <= sched_wait_end` raises
`AssertionError` (modelled as `Except.error`) when the stored `last_ts`
still exceeds the schedwait end after the branch. -/
def update_last_ts (rec : FlowRecord) (ev : FlowKernelEvent) :
    Except String (FlowRecord × Bool) :=
  let last_ts := ev.ts + ev.dur - 1 / 1000
  let sched_wait_end := match rec.schedwait with
    | some sw => sw.1 + sw.2
    | none => last_ts
  let res : FlowRecord × Bool :=
    if last_ts ≤ sched_wait_end ∧ last_ts > rec.last_ts then
      ({ rec with
          last_ts := last_ts
          last_pid_tid := (ev.pid, ev.tid)
          last_event := some ev }, false)
    else (rec, true)
  if res.1.last_ts ≤ sched_wait_end then .ok res else .error "AssertionError"

/-! ## TensorBoard per-worker filing (export/exporter.py)

`TensorBoardFileTraceExporter._parse_by_rank_id(key, data)`: each event with
an integer id is filed into `events_by_id[rank_id]`, where ids `≥ 1000` have
`1000` subtracted once.  Events whose id is `None` or not an integer are
skipped. -/

/-- The id rewrite applied before filing. -/
def tbRankId (rank_id : ℤ) : ℤ :=
  if rank_id ≥ 1000 then rank_id - 1000 else rank_id

structure ExportEvent where
  /-- `event[key]` (`pid` for trace events): `none` models both a Python
  `None` and a non-integer value, which are skipped -/
  rank_id : Option ℤ
  payload : ℕ
deriving DecidableEq

/-- `_parse_by_rank_id` as the map from worker id to its filed events (the
`defaultdict(list)` with per-key append). -/
def parseByRankId (evs : List ExportEvent) : ℤ → List ExportEvent :=
  evs.foldl
    (fun m e =>
      match e.rank_id with
      | some p => fun k => if k = tbRankId p then m k ++ [e] else m k
      | none => m)
    (fun _ => [])

/-! ## TraceWarning (types.py)

`TraceWarning.__init__` receives a template `text`, a data dict and a dict
of per-key reducers.  The placeholder keys are extracted by
`re.findall(r"{d\[([.\w]+)\]}", text)`; the embedding takes that extracted
key list (with multiplicity, as `findall` returns it) directly.  Python
values are modelled by `PyVal`; the default reducer `int.__add__`, called as
an unbound descriptor, adds two ints, evaluates to `NotImplemented` for an
int and a non-int, and raises `TypeError` when its first argument is not an
int. -/

inductive PyVal where
  | int (i : ℤ)
  | float (q : ℚ)
  | pyset (s : List ℤ)
  | notImplemented
deriving DecidableEq

/-- `int.__add__` as stored and called by `TraceWarning`. -/
def pyIntAdd : PyVal → PyVal → Except String PyVal
  | .int x, .int y => .ok (.int (x + y))
  | .int _, _ => .ok .notImplemented
  | _, _ => .error "TypeError"

abbrev Reducer := PyVal → PyVal → Except String PyVal

def keysOf {α : Type} (l : List (String × α)) : List String := l.map Prod.fst

/-- `Except.isOk` (the init did not raise). -/
def isOkE {ε α : Type} : Except ε α → Bool
  | .ok _ => true
  | .error _ => false

structure TraceWarningModel where
  text_keys : List String
  args_list : List (String × PyVal)
  update_fn : List (String × Reducer)
  occurred : Bool

/-- Python `dict[k]` on an insertion-ordered association list. -/
def lookupVal (l : List (String × PyVal)) (k : String) : Option PyVal :=
  (l.find? (fun p => p.1 = k)).map (·.2)

def lookupFn (l : List (String × Reducer)) (k : String) : Option Reducer :=
  (l.find? (fun p => p.1 = k)).map (·.2)

/-- `dict[k] = v` for an existing key. -/
def setVal (l : List (String × PyVal)) (k : String) (v : PyVal) :
    List (String × PyVal) :=
  l.map (fun p => if p.1 = k then (k, v) else p)

/-- The `self.update_fn[k] = int.__add__` defaulting loops of
`_check_text_keys` / `_check_data_keys`. -/
def addDefaults (fns : List (String × Reducer)) :
    List String → List (String × Reducer)
  | [] => fns
  | k :: ks =>
      addDefaults (if k ∈ keysOf fns then fns else fns ++ [(k, pyIntAdd)]) ks

/-- `TraceWarning.__init__(name, text, data, update_fn)` with the placeholder
keys of `text` already extracted.  Raising is modelled by `Except.error`. -/
def traceWarningInit (text_keys : List String)
    (data : List (String × PyVal)) (update_fn : List (String × Reducer)) :
    Except String TraceWarningModel :=
  if text_keys.length ≠ data.length then .error "ValueError"
  else if ¬ (∀ p ∈ update_fn, p.1 ∈ text_keys ∧ p.1 ∈ keysOf data) then
    .error "KeyError"
  else if ¬ (∀ k ∈ text_keys, k ∈ keysOf data) then .error "KeyError"
  else if ¬ (∀ k ∈ keysOf data, k ∈ text_keys) then .error "KeyError"
  else .ok
    { text_keys := text_keys
      args_list := data
      update_fn := addDefaults (addDefaults update_fn text_keys) (keysOf data)
      occurred := false }

/-- One iteration of the `TraceWarning.update` loop. -/
def traceWarningUpdateStep (w : TraceWarningModel) (k : String) (v : PyVal) :
    Except String TraceWarningModel :=
  match lookupVal w.args_list k with
  | none => .error "KeyError"
  | some old =>
      match lookupFn w.update_fn k with
      | none => .error "KeyError"
      | some f =>
          (f old v).map (fun nv =>
            { w with args_list := setVal w.args_list k nv, occurred := true })

/-- `TraceWarning.update(data)`. -/
def traceWarningUpdate (w : TraceWarningModel)
    (data : List (String × PyVal)) : Except String TraceWarningModel :=
  data.foldlM (fun w0 p => traceWarningUpdateStep w0 p.1 p.2) w

/-! ## _hex_to_int_str (pipeline/normalize.py)

`_hex_to_int_str` rewrites `args["TS1".."TS5","Power"]` string values through
Python `str(int(value, 0))`, leaving the value alone on `ValueError`.
`int(s, 0)` is a Python builtin; it is modelled here: surrounding whitespace
is stripped, an optional sign is accepted, `0x`/`0o`/`0b` prefixes select the
base, a plain decimal must not have leading zeros unless all digits are zero
(digit-group underscores are not modelled). -/

/-- Value of one digit character (up to base 16). -/
def digitVal (c : Char) : Option ℕ :=
  if '0' ≤ c ∧ c ≤ '9' then some (c.toNat - '0'.toNat)
  else if 'a' ≤ c ∧ c ≤ 'f' then some (c.toNat - 'a'.toNat + 10)
  else if 'A' ≤ c ∧ c ≤ 'F' then some (c.toNat - 'A'.toNat + 10)
  else none

/-- Parse a non-empty digit string in the given base. -/
def parseDigits (base : ℕ) (cs : List Char) : Option ℕ :=
  if cs.isEmpty then none
  else cs.foldlM
    (fun acc c => (digitVal c).bind
      (fun d => if d < base then some (acc * base + d) else none)) 0

/-- The unsigned part of Python `int(s, 0)`. -/
def pyIntBase0Core : List Char → Option ℕ
  | '0' :: c :: rest =>
      if c = 'x' ∨ c = 'X' then parseDigits 16 rest
      else if c = 'o' ∨ c = 'O' then parseDigits 8 rest
      else if c = 'b' ∨ c = 'B' then parseDigits 2 rest
      else if (c :: rest).all (· = '0') then some 0
      else none
  | ['0'] => some 0
  | [] => none
  | cs => parseDigits 10 cs

/-- Python `int(s, 0)` (without digit-group underscores). -/
def pyIntBase0 (s : String) : Option ℤ :=
  let cs := ((s.data.dropWhile Char.isWhitespace).reverse.dropWhile
    Char.isWhitespace).reverse
  match cs with
  | '+' :: rest => (pyIntBase0Core rest).map Int.ofNat
  | '-' :: rest => (pyIntBase0Core rest).map (fun n => -(n : ℤ))
  | _ => (pyIntBase0Core cs).map Int.ofNat

/-- A Python value stored under an args key. -/
inductive PyV where
  | str (s : String)
  | other (o : ℕ)
deriving DecidableEq

def PyV.isStr : PyV → Bool
  | .str _ => true
  | .other _ => false

/-- `event["args"]`: either a dict (partial map) or some non-dict value. -/
inductive ArgsV where
  | dict (m : String → Option PyV)
  | nondict

/-- The fields of a trace event touched (or explicitly left alone) by
`_hex_to_int_str`: `args` plus representative other fields. -/
structure NEvent where
  args : Option ArgsV
  name : String
  ts : ℚ

def hexArgKeys : List String := ["TS1", "TS2", "TS3", "TS4", "TS5", "Power"]

/-- The per-key conversion `str(int(v, 0))`, leaving the value alone when it
is not a string or fails to parse. -/
def hexConvVal : Option PyV → Option PyV
  | some (.str s) =>
      match pyIntBase0 s with
      | some i => some (.str (toString i))
      | none => some (.str s)
  | v => v

/-- `_hex_to_int_str(event)`. -/
def hexToIntStr (e : NEvent) : NEvent :=
  match e.args with
  | some (.dict m) =>
      { e with args := some (.dict (fun k =>
          if k ∈ hexArgKeys then hexConvVal (m k) else m k)) }
  | _ => e

/-- The value stored under args key `k`, when `args` is a dict. -/
def argsAt (e : NEvent) (k : String) : Option PyV :=
  match e.args with
  | some (.dict m) => m k
  | _ => none

/-! ## RefinementContext.drain (pipeline/tb_refinement.py)

`drain` emits, once, three metadata events (`process_name`,
`process_label`, `process_sort_index`) for the cpu entry and for the acc
entry of every registered `DeviceRankInfo`, plus two CollectiveBW metadata
events when a `"BW allreduce"` counter was seen, and then latches
`meta_exported`. -/

structure DeviceRankEntry where
  name : String
  ts : ℚ
  pid : ℤ
  index : ℤ
deriving DecidableEq

structure DeviceRankInfo where
  cpu : DeviceRankEntry
  acc : DeviceRankEntry
deriving DecidableEq

structure MetaEvent where
  ph : String
  name : String
  pid : ℤ
  ts : ℚ
  argsName : Option String
  argsSortIndex : Option ℤ
deriving DecidableEq

/-- `DeviceRankInfo.gen_meta(key)`. -/
def gen_meta (entry : DeviceRankEntry) : List MetaEvent :=
  [⟨"M", "process_name", entry.pid, entry.ts, some entry.name, none⟩,
   ⟨"M", "process_label", entry.pid, entry.ts, some entry.name, none⟩,
   ⟨"M", "process_sort_index", entry.pid, entry.ts, none, some entry.index⟩]

/-- The two CollectiveBW metadata events. -/
def collBwMeta : List MetaEvent :=
  [⟨"M", "process_name", -1, 0, some "CollectiveBW", none⟩,
   ⟨"M", "process_sort_index", -1, 0, none, some 0⟩]

/-- `RefinementContext` state read by `drain`. -/
structure RefinementState where
  meta_exported : Bool
  has_coll_bw : Bool
  queues : List (ℤ × DeviceRankInfo)

/-- `RefinementContext.drain()`: the emitted events and the updated state. -/
def refinementDrain (s : RefinementState) : List MetaEvent × RefinementState :=
  if s.meta_exported then ([], s)
  else
    (s.queues.foldl (fun acc q => acc ++ gen_meta q.2.cpu ++ gen_meta q.2.acc) []
        ++ (if s.has_coll_bw then collBwMeta else []),
      { s with meta_exported := true })

/-! ## Theorems -/

/-- C1 (counterexample): for the observed fingerprint `O = ("", 2, 1)` and the
table fingerprint `T = ("", 1, 1)` the code returns `0` (early exit because
`O.count > T.count`), while the claimed weighted sum is `1`: the sequence and
time terms do not contribute.  Hence `similarity` does not equal the claimed
independent weighted sum. -/
theorem similarity_not_independent_sum :
    similarity ⟨"", 2, 1⟩ ⟨"", 1, 1⟩ = 0 ∧
    similaritySpecStated ⟨"", 2, 1⟩ ⟨"", 1, 1⟩ = 1 := by
  constructor <;>
    norm_num [similarity, similaritySpecStated, strFindHit,
      simWeightSequence, simWeightTabLen, simWeightTotalTime]

/-- C1 (amended): `similarity O T` equals the weighted sum of the three terms
when `O.count ≤ T.count` and `T.time ≤ O.time`; in every other case the whole
score is `0` (an early exclusion), not a sum with a single zeroed term. -/
theorem similarity_eq_weighted_sum_or_zero (O T : RCUFingerprint) :
    similarity O T =
      if O.dataitems ≤ T.dataitems ∧ T.totaltime ≤ O.totaltime then
        simWeightSequence *
          (if strFindHit T.fprint_data O.fprint_data then 1 else 1 / 2)
        + simWeightTabLen * ((O.dataitems : ℚ) / (T.dataitems : ℚ))
        + simWeightTotalTime * (T.totaltime / O.totaltime)
      else 0 := by
  unfold similarity
  by_cases h1 : O.dataitems > T.dataitems
  · have h1' : ¬ O.dataitems ≤ T.dataitems := not_le.mpr h1
    simp [h1, h1']
  · have h1' : O.dataitems ≤ T.dataitems := not_lt.mp h1
    by_cases h2 : T.totaltime > O.totaltime
    · have h2' : ¬ T.totaltime ≤ O.totaltime := not_le.mpr h2
      simp [h1, h2, h1', h2']
    · have h2' : T.totaltime ≤ O.totaltime := not_lt.mp h2
      simp [h1, h2, h1', h2']

/-- C2: the clamped utilization lies in `[0, 1]`; the `util_100` counter is
bumped exactly when the raw value exceeds `1`; `pt_active`, when set,
lies in `[0, 1]`; the first emitted counter is a `ph="C"` `"PT Active"`
`"Percent"` event at `event.ts` carrying the utilization in percent; and a
second zero-valued counter at `event.ts + event.dur` is emitted exactly when
the utilization is non-zero. -/
theorem compute_utilization_spec (ideal_dur : ℚ) (ev : KernelEventInfo) :
    0 ≤ (compute_utilization_core ideal_dur ev).utilization ∧
    (compute_utilization_core ideal_dur ev).utilization ≤ 1 ∧
    ((compute_utilization_core ideal_dur ev).util_100 = true ↔
      1 < rawUtilization ideal_dur ev.dur) ∧
    (∀ p, (compute_utilization_core ideal_dur ev).pt_active = some p →
      0 ≤ p ∧ p ≤ 1) ∧
    ((compute_utilization_core ideal_dur ev).counters.head? =
      some ⟨"C", ev.ts, ev.pid, ptUtilCounterName, ptUtilCounterUnit,
        (compute_utilization_core ideal_dur ev).utilization * 100, some ev.dur⟩) ∧
    ((compute_utilization_core ideal_dur ev).utilization ≠ 0 →
      (compute_utilization_core ideal_dur ev).counters =
        [⟨"C", ev.ts, ev.pid, ptUtilCounterName, ptUtilCounterUnit,
          (compute_utilization_core ideal_dur ev).utilization * 100, some ev.dur⟩,
         ⟨"C", ev.ts + ev.dur, ev.pid, ptUtilCounterName, ptUtilCounterUnit,
          0, none⟩]) ∧
    ((compute_utilization_core ideal_dur ev).utilization = 0 →
      (compute_utilization_core ideal_dur ev).counters =
        [⟨"C", ev.ts, ev.pid, ptUtilCounterName, ptUtilCounterUnit, 0, some ev.dur⟩]) := by
  have hraw : 0 ≤ rawUtilization ideal_dur ev.dur := by
    unfold rawUtilization
    split
    · exact le_refl 0
    · exact abs_nonneg _
  set u := rawUtilization ideal_dur ev.dur with hu
  simp only [compute_utilization_core, make_utilization_event, ← hu]
  by_cases hgt : u > 1
  · have h1 : (if u > 1 then (1 : ℚ) else u) = 1 := if_pos hgt
    refine ⟨?_, ?_, ?_, ?_, ?_, ?_, ?_⟩
    · simp [h1]
    · simp [h1]
    · simp [hgt]
    · intro p hp
      simp [h1] at hp
      simp [← hp]
    · simp [h1]
    · intro hne
      simp [h1]
    · intro hz
      rw [h1] at hz
      exact absurd hz one_ne_zero
  · have h1 : (if u > 1 then (1 : ℚ) else u) = u := if_neg hgt
    have hle : u ≤ 1 := not_lt.mp hgt
    refine ⟨?_, ?_, ?_, ?_, ?_, ?_, ?_⟩
    · simpa [h1] using hraw
    · simpa [h1] using hle
    · simp [hgt]
    · intro p hp
      by_cases hpos : u > 0
      · simp [h1, hpos] at hp
        subst hp
        exact ⟨hraw, hle⟩
      · simp [h1, hpos] at hp
    · by_cases hpos : u > 0 <;> simp [h1, hpos]
    · intro hne
      have hpos : u > 0 := lt_of_le_of_ne hraw (by simpa [h1] using Ne.symm hne)
      simp [h1, hpos]
    · intro hz
      have hz' : u = 0 := by simpa [h1] using hz
      simp [h1, hz']
      norm_num

/-- C2 (witness): for `ideal_dur = 5` and an event of duration `10` the raw
utilization is `1/2`: both counters are emitted, `pt_active = 1/2`, and no
`util_100` warning fires. -/
theorem compute_utilization_spec_witness :
    (compute_utilization_core 5 ⟨0, 10, 1⟩).pt_active = some (1 / 2) ∧
    0 ≤ (1 / 2 : ℚ) ∧ (1 / 2 : ℚ) ≤ 1 ∧
    (compute_utilization_core 5 ⟨0, 10, 1⟩).counters =
      [⟨"C", 0, 1, ptUtilCounterName, ptUtilCounterUnit, 50, some 10⟩,
       ⟨"C", 0 + 10, 1, ptUtilCounterName, ptUtilCounterUnit, 0, none⟩] := by
  have habs : |(1 : ℚ) / 2| = 1 / 2 := by
    rw [abs_of_nonneg] ; norm_num
  have hval : (compute_utilization_core 5 ⟨0, 10, 1⟩).utilization = 1 / 2 := by
    norm_num [compute_utilization_core, rawUtilization, habs]
  have h := compute_utilization_spec 5 ⟨0, 10, 1⟩
  have hpt : (compute_utilization_core 5 ⟨0, 10, 1⟩).pt_active = some (1 / 2) := by
    norm_num [compute_utilization_core, rawUtilization, habs]
  refine ⟨hpt, by norm_num, by norm_num, ?_⟩
  have hcnt := h.2.2.2.2.2.1 (by rw [hval]; norm_num)
  rw [hcnt, hval]
  norm_num

/-- C3 (counterexample): for `TS1..TS5 = 1000, 500, 100, 2500, 3000` each bump
adds a single `2^32`, so `TS3` ends at `2^32 + 100`, below `TS2`'s
`2^32 + 500`: the corrected sequence is not non-decreasing. -/
theorem tsx_local_correction_not_monotonic :
    tsxCorrectTS [1000, 500, 100, 2500, 3000] =
      [1000, 4294967796, 4294967396, 4294969796, 4294970296] ∧
    ¬ List.Chain' (· ≤ ·) (tsxCorrectTS [1000, 500, 100, 2500, 3000]) := by
  have hl : tsxCorrectTS [1000, 500, 100, 2500, 3000] =
      [1000, 4294967796, 4294967396, 4294969796, 4294970296] := by decide
  refine ⟨hl, ?_⟩
  rw [hl]
  simp only [List.chain'_cons, List.chain'_singleton, and_true]
  omega

/-- C3 (amended): each `TS` value smaller than its already-corrected
predecessor is bumped by exactly one `2^32` and the first bumped field is
recorded; the corrected sequence is guaranteed non-decreasing only under a
side condition, e.g. when all five raw values are 32-bit and at most one raw
value is smaller than its raw predecessor.  The S2 example satisfies this:
`TS3` becomes `4294967796`, `TSxOF = "TS3"`, and the result is monotonic. -/
theorem tsx_local_correction_amended :
    (∀ a b c d e : ℤ,
      0 ≤ a → a < 2 ^ 32 → 0 ≤ b → b < 2 ^ 32 → 0 ≤ c → c < 2 ^ 32 →
      0 ≤ d → d < 2 ^ 32 → 0 ≤ e → e < 2 ^ 32 →
      ((if b < a then 1 else 0) + (if c < b then 1 else 0) +
       (if d < c then 1 else 0) + (if e < d then 1 else 0) : ℕ) ≤ 1 →
      List.Chain' (· ≤ ·) (tsxCorrectTS [a, b, c, d, e])) ∧
    tsxCorrectTS [1000, 2000, 500, 2500, 3000] =
      [1000, 2000, 4294967796, 4294969796, 4294970296] ∧
    (tsxOF [1000, 2000, 500, 2500, 3000]).map tsFieldName = some "TS3" ∧
    List.Chain' (· ≤ ·) (tsxCorrectTS [1000, 2000, 500, 2500, 3000]) := by
  have hl : tsxCorrectTS [1000, 2000, 500, 2500, 3000] =
      [1000, 2000, 4294967796, 4294969796, 4294970296] := by decide
  refine ⟨?_, hl, by decide, ?_⟩
  swap
  · rw [hl]
    simp only [List.chain'_cons, List.chain'_singleton, and_true]
    omega
  intro a b c d e ha0 ha1 hb0 hb1 hc0 hc1 hd0 hd1 he0 he1 hdesc
  simp only [tsxCorrectTS, tsxLocalCorrection, tsxInitPrev,
    List.chain'_cons, List.chain'_singleton, and_true]
  split_ifs at hdesc ⊢ <;> omega

/-- C3 (amended, witness): the side condition holds for the S2 input, and the
corrected sequence is monotonic. -/
theorem tsx_local_correction_amended_witness :
    List.Chain' (· ≤ ·) (tsxCorrectTS [1000, 2000, 500, 2500, 3000]) :=
  tsx_local_correction_amended.1 1000 2000 500 2500 3000
    (by decide) (by decide) (by decide) (by decide) (by decide) (by decide)
    (by decide) (by decide) (by decide) (by decide) (by decide)

/-- C4: for an accelerator event whose class is `DATA_IN` or `DATA_OUT` and
whose batch has recorded first/last compute timestamps, the second pass
returns the promoted protocol class exactly when `ts` lies strictly between
them, and returns the recorded class unchanged otherwise. -/
theorem second_pass_classify_spec (s : CategorizerStats) (ev : CatEvent)
    (f l : ℚ) (hacc : ev.is_acc = true) (hq : s.queues ev.batch = some (f, l))
    (hdata : ev.cls = .DATA_IN ∨ ev.cls = .DATA_OUT) :
    (second_pass_classify s ev = promoteDataClass ev.cls ↔
      (f < ev.ts ∧ ev.ts < l)) ∧
    (¬ (f < ev.ts ∧ ev.ts < l) → second_pass_classify s ev = ev.cls) := by
  have hne : promoteDataClass ev.cls ≠ ev.cls := by
    rcases hdata with h | h <;> rw [h] <;> simp [promoteDataClass]
  constructor
  · constructor
    · intro heq
      by_contra hwin
      rw [second_pass_classify, hacc, hq] at heq
      simp only [Bool.true_eq_false, if_false] at heq
      rw [if_neg hwin] at heq
      exact hne heq.symm
    · intro hwin
      rw [second_pass_classify, hacc, hq]
      simp only [Bool.true_eq_false, if_false]
      rw [if_pos hwin]
      rcases hdata with h | h <;> rw [h] <;> simp [promoteDataClass]
  · intro hwin
    rw [second_pass_classify, hacc, hq]
    simp only [Bool.true_eq_false, if_false]
    rw [if_neg hwin]

/-- C4 (witness): three accelerator kernel events at `ts = 10, 20, 30` in
batch `7` are collected; a `DATA_IN` accelerator event at `ts = 15` in the
same batch is then promoted to `MAIU_PROTOCOL_RECV_DATA`. -/
theorem second_pass_classify_spec_witness :
    second_pass_classify
      ([(⟨10, true, true, 7, .COMPUTE_EXEC⟩ : CatEvent),
        ⟨20, true, true, 7, .COMPUTE_EXEC⟩,
        ⟨30, true, true, 7, .COMPUTE_EXEC⟩].foldl collect_stats
        initCategorizerStats)
      ⟨15, true, false, 7, .DATA_IN⟩ = .MAIU_PROTOCOL_RECV_DATA := by
  have hq : ([(⟨10, true, true, 7, .COMPUTE_EXEC⟩ : CatEvent),
        ⟨20, true, true, 7, .COMPUTE_EXEC⟩,
        ⟨30, true, true, 7, .COMPUTE_EXEC⟩].foldl collect_stats
        initCategorizerStats).queues 7 = some (10, 30) := by
    simp [collect_stats, initCategorizerStats, catBig, min_def, max_def]
    norm_num
  have h := second_pass_classify_spec _ (⟨15, true, false, 7, .DATA_IN⟩ : CatEvent)
    10 30 rfl hq (Or.inl rfl)
  have := h.1.mpr (by norm_num)
  simpa [promoteDataClass] using this

/-- Lookup after appending a fresh key finds the appended value. -/
theorem tableLookup_append_self (tbl : List (String × ℕ)) (k : String) (v : ℕ)
    (h : tableLookup tbl k = none) :
    tableLookup (tbl ++ [(k, v)]) k = some v := by
  induction tbl with
  | nil => simp [tableLookup]
  | cons p rest ih =>
      by_cases hp : p.1 = k
      · exfalso
        simp [tableLookup, List.find?_cons, hp] at h
      · have hstep : ∀ l : List (String × ℕ),
            tableLookup (p :: l) k = tableLookup l k := by
          intro l
          simp [tableLookup, List.find?_cons, hp]
        rw [List.cons_append, hstep]
        rw [hstep] at h
        exact ih h

/-- C5 (counterexample): a data line with cycle count `0` whose kernel is not
yet in the table is dropped: the resulting table does not map
`"foo Cmpt Exec"` to `0` (it stays empty), contradicting the claim that the
mapping is inserted for any parsed cycle count including `0`. -/
theorem processDataLine_zero_not_inserted :
    (processDataLine [] "foo" 0).1 = [] ∧
    tableLookup (processDataLine [] "foo" 0).1 "foo Cmpt Exec" = none := by
  constructor <;> rfl

/-- C5 (amended): a non-zero cycle count for a fresh kernel is inserted under
the key `name ++ " Cmpt Exec"`; a zero cycle count for a fresh kernel is
dropped; for a key already present the stored value is kept and the warning
fires exactly when the new count differs. -/
theorem processDataLine_spec (tbl : List (String × ℕ)) (base : String)
    (cycles : ℕ) :
    (tableLookup tbl (base ++ " Cmpt Exec") = none → cycles ≠ 0 →
      tableLookup (processDataLine tbl base cycles).1 (base ++ " Cmpt Exec") =
        some cycles ∧ (processDataLine tbl base cycles).2 = false) ∧
    (tableLookup tbl (base ++ " Cmpt Exec") = none → cycles = 0 →
      (processDataLine tbl base cycles).1 = tbl ∧
      (processDataLine tbl base cycles).2 = false) ∧
    (∀ old, tableLookup tbl (base ++ " Cmpt Exec") = some old →
      (processDataLine tbl base cycles).1 = tbl ∧
      ((processDataLine tbl base cycles).2 = true ↔ cycles ≠ old)) := by
  refine ⟨?_, ?_, ?_⟩
  · intro hnone hnz
    simp only [processDataLine, hnone]
    rw [if_pos hnz]
    exact ⟨tableLookup_append_self tbl _ cycles hnone, trivial⟩
  · intro hnone hz
    simp [processDataLine, hnone, hz]
  · intro old hsome
    simp [processDataLine, hsome]

/-- C5 (amended, witness): inserting `("bar", 42)` into a table already
holding `"foo Cmpt Exec"` with value `7`, then re-offering `7` and `9` for
`"foo"`. -/
theorem processDataLine_spec_witness :
    (tableLookup (processDataLine [("foo Cmpt Exec", 7)] "bar" 42).1
      "bar Cmpt Exec" = some 42 ∧
     (processDataLine [("foo Cmpt Exec", 7)] "bar" 42).2 = false) ∧
    ((processDataLine [("foo Cmpt Exec", 7)] "foo" 9).1 =
      [("foo Cmpt Exec", 7)] ∧
     ((processDataLine [("foo Cmpt Exec", 7)] "foo" 9).2 = true ↔ (9 : ℕ) ≠ 7)) := by
  constructor
  · exact (processDataLine_spec [("foo Cmpt Exec", 7)] "bar" 42).1 rfl (by decide)
  · exact (processDataLine_spec [("foo Cmpt Exec", 7)] "foo" 9).2.2 7 rfl

/-- C6 (counterexample): record with stored `last_ts = 100` and schedwait
ending at `200`; a kernel event ending at `30 ≤ 200` should, per the claim,
update the record — but the code also requires the new end to exceed the
stored `last_ts`, so the event is warned about and ignored (the closing
assert passes, since `100 ≤ 200`). -/
theorem update_last_ts_not_exactly_range :
    (10 : ℚ) + 20 ≤ 0 + 200 ∧
    update_last_ts ⟨100, (0, 0), some (0, 200), none⟩ ⟨10, 20, 3, 4⟩ =
      .ok (⟨100, (0, 0), some (0, 200), none⟩, true) := by
  constructor
  · norm_num
  · norm_num [update_last_ts]

/-- C6 (amended): with a recorded schedwait `(swt, swd)`, the record is
updated (and no warning logged) exactly when `ts + dur - 0.001` is at most
the schedwait end `swt + swd` AND strictly exceeds the stored `last_ts`; any
other event is warned about and leaves the record unchanged when the stored
`last_ts` is within the schedwait end, and makes the closing assert raise
`AssertionError` when the stored `last_ts` already exceeds it. -/
theorem update_last_ts_spec (rec : FlowRecord) (ev : FlowKernelEvent)
    (swt swd : ℚ) (hsw : rec.schedwait = some (swt, swd)) :
    update_last_ts rec ev =
      if ev.ts + ev.dur - 1 / 1000 ≤ swt + swd ∧
          rec.last_ts < ev.ts + ev.dur - 1 / 1000 then
        .ok ({ rec with
            last_ts := ev.ts + ev.dur - 1 / 1000
            last_pid_tid := (ev.pid, ev.tid)
            last_event := some ev }, false)
      else if rec.last_ts ≤ swt + swd then .ok (rec, true)
      else .error "AssertionError" := by
  simp only [update_last_ts, hsw]
  by_cases h : ev.ts + ev.dur - 1 / 1000 ≤ swt + swd ∧
      rec.last_ts < ev.ts + ev.dur - 1 / 1000
  · rw [if_pos h, if_pos h]
    rw [if_pos h.1]
  · rw [if_neg h, if_neg h]

/-- C6 (amended, witness): a kernel event ending inside the schedwait window
and after the stored `last_ts` updates the record; one ending inside the
window but not after the stored `last_ts` is warned about and ignored; and
with the stored `last_ts` beyond the schedwait end the assert fires. -/
theorem update_last_ts_spec_witness :
    update_last_ts ⟨5, (0, 0), some (0, 200), none⟩ ⟨10, 20, 3, 4⟩ =
      .ok (⟨10 + 20 - 1 / 1000, (3, 4), some (0, 200), some ⟨10, 20, 3, 4⟩⟩,
        false) ∧
    update_last_ts ⟨300, (0, 0), some (0, 200), none⟩ ⟨10, 20, 3, 4⟩ =
      .error "AssertionError" := by
  constructor
  · rw [update_last_ts_spec ⟨5, (0, 0), some (0, 200), none⟩ ⟨10, 20, 3, 4⟩
      0 200 rfl]
    norm_num
  · rw [update_last_ts_spec ⟨300, (0, 0), some (0, 200), none⟩ ⟨10, 20, 3, 4⟩
      0 200 rfl]
    norm_num

/-- Each step of the fold only appends, and exactly to the bucket of the
rewritten id. -/
theorem parseByRankId_go (evs : List ExportEvent)
    (acc : ℤ → List ExportEvent) (k : ℤ) :
    evs.foldl
      (fun m e =>
        match e.rank_id with
        | some p => fun j => if j = tbRankId p then m j ++ [e] else m j
        | none => m) acc k =
    acc k ++ (evs.filter (fun e =>
      match e.rank_id with
      | some p => decide (k = tbRankId p)
      | none => false)) := by
  induction evs generalizing acc with
  | nil => simp
  | cons e rest ih =>
      cases he : e.rank_id with
      | none => simp [List.foldl_cons, he, ih, List.filter_cons]
      | some p =>
          rw [List.foldl_cons]
          simp only [he]
          rw [ih]
          by_cases hk : k = tbRankId p
          · simp [List.filter_cons, he, hk]
          · simp [List.filter_cons, he, hk]

/-- C7 (counterexample): an event with `pid = 2500` is filed under worker id
`1500` (the code subtracts `1000` once), not under `pid mod 1000 = 500`. -/
theorem tb_worker_id_not_mod :
    tbRankId 2500 = 1500 ∧ (2500 : ℤ) % 1000 = 500 ∧
    parseByRankId [⟨some 2500, 0⟩] 500 = [] ∧
    parseByRankId [⟨some 2500, 0⟩] 1500 = [⟨some 2500, 0⟩] := by
  refine ⟨by decide, by decide, ?_, ?_⟩ <;>
    simp [parseByRankId, tbRankId]

/-- C7 (amended): an event with integer id `p` is filed under worker id
`p - 1000` when `p ≥ 1000` and under `p` otherwise; this coincides with
`p mod 1000` only for `0 ≤ p < 2000`.  Each bucket holds exactly the events
whose rewritten id matches it, in stream order. -/
theorem tb_worker_id_spec (evs : List ExportEvent) (k p : ℤ)
    (h0 : 0 ≤ p) (h2 : p < 2000) :
    parseByRankId evs k = evs.filter (fun e =>
      match e.rank_id with
      | some q => decide (k = tbRankId q)
      | none => false) ∧
    tbRankId p = p % 1000 := by
  constructor
  · simpa using parseByRankId_go evs (fun _ => []) k
  · unfold tbRankId
    by_cases hp : p ≥ 1000
    · rw [if_pos hp]
      omega
    · rw [if_neg hp]
      omega

/-- C7 (amended, witness): filing a pid-1234 and a pid-17 event. -/
theorem tb_worker_id_spec_witness :
    parseByRankId [⟨some 1234, 0⟩, ⟨some 17, 1⟩] 234 = [⟨some 1234, 0⟩] ∧
    tbRankId 1234 = 1234 % 1000 := by
  have h := tb_worker_id_spec [⟨some 1234, 0⟩, ⟨some 17, 1⟩] 234 1234
    (by decide) (by decide)
  refine ⟨?_, h.2⟩
  rw [h.1]
  decide

theorem lookupFn_append_left (fns l : List (String × Reducer)) (k : String)
    (f : Reducer) (h : lookupFn fns k = some f) :
    lookupFn (fns ++ l) k = some f := by
  induction fns with
  | nil => simp [lookupFn] at h
  | cons p rest ih =>
      by_cases hp : p.1 = k
      · simp [lookupFn, List.find?_cons, hp] at h ⊢
        exact h
      · have hstep : ∀ l2 : List (String × Reducer),
            lookupFn (p :: l2) k = lookupFn l2 k := by
          intro l2
          simp [lookupFn, List.find?_cons, hp]
        rw [List.cons_append, hstep]
        rw [hstep] at h
        exact ih h

theorem lookupFn_not_mem_none (fns : List (String × Reducer)) (k : String)
    (h : k ∉ keysOf fns) : lookupFn fns k = none := by
  induction fns with
  | nil => rfl
  | cons p rest ih =>
      have hp : p.1 ≠ k := by
        intro he
        exact h (by simp [keysOf, he])
      have hr : k ∉ keysOf rest := by
        intro hm
        exact h (by simp [keysOf] at hm ⊢; exact Or.inr hm)
      simp [lookupFn, List.find?_cons, hp]
      have := ih hr
      simpa [lookupFn] using this

theorem lookupFn_append_fresh (fns : List (String × Reducer)) (k : String)
    (f : Reducer) (h : k ∉ keysOf fns) :
    lookupFn (fns ++ [(k, f)]) k = some f := by
  induction fns with
  | nil => simp [lookupFn]
  | cons p rest ih =>
      have hp : p.1 ≠ k := by
        intro he
        exact h (by simp [keysOf, he])
      have hr : k ∉ keysOf rest := by
        intro hm
        exact h (by simp [keysOf] at hm ⊢; exact Or.inr hm)
      have hstep : ∀ l2 : List (String × Reducer),
          lookupFn (p :: l2) k = lookupFn l2 k := by
        intro l2
        simp [lookupFn, List.find?_cons, hp]
      rw [List.cons_append, hstep]
      exact ih hr

theorem addDefaults_preserves (ks : List String)
    (fns : List (String × Reducer)) (k : String) (f : Reducer)
    (h : lookupFn fns k = some f) :
    lookupFn (addDefaults fns ks) k = some f := by
  induction ks generalizing fns with
  | nil => exact h
  | cons k0 ks ih =>
      rw [addDefaults]
      by_cases h0 : k0 ∈ keysOf fns
      · rw [if_pos h0]
        exact ih fns h
      · rw [if_neg h0]
        exact ih _ (lookupFn_append_left fns [(k0, pyIntAdd)] k f h)

theorem addDefaults_default (ks : List String)
    (fns : List (String × Reducer)) (k : String)
    (hk : k ∈ ks) (hno : k ∉ keysOf fns) :
    lookupFn (addDefaults fns ks) k = some pyIntAdd := by
  induction ks generalizing fns with
  | nil => cases hk
  | cons k0 ks ih =>
      rw [addDefaults]
      by_cases hk0 : k = k0
      · subst hk0
        rw [if_neg hno]
        exact addDefaults_preserves ks _ k pyIntAdd
          (lookupFn_append_fresh fns k pyIntAdd hno)
      · have hk' : k ∈ ks := by
          cases List.mem_cons.mp hk with
          | inl h => exact absurd h hk0
          | inr h => exact h
        by_cases h0 : k0 ∈ keysOf fns
        · rw [if_pos h0]
          exact ih fns hk' hno
        · rw [if_neg h0]
          refine ih _ hk' ?_
          intro hm
          simp only [keysOf, List.map_append, List.map_cons, List.map_nil,
            List.mem_append, List.mem_cons] at hm
          cases hm with
          | inl h => exact hno (by simpa [keysOf] using h)
          | inr h =>
              cases h with
              | inl h => exact hk0 h
              | inr h => cases h

/-- C8 (counterexample): the constructor accepts an empty reducer dict even
though the reducer key set differs from the placeholder/data key sets (so it
does not raise exactly on non-identical sets); and for a key with no
explicit reducer holding a float value, `update` calls the stored default
`int.__add__`, which raises `TypeError` — not the claimed `max`. -/
theorem traceWarning_defaults_counterexample :
    isOkE (traceWarningInit ["count"] [("count", .int 0)] []) = true ∧
    ((traceWarningInit ["m"] [("m", .float 1)] []).bind
      (fun w => traceWarningUpdate w [("m", .float 2)])).map
      (fun w => w.args_list) = .error "TypeError" := by
  constructor
  · rfl
  · rfl

/-- C8 (amended): the constructor raises exactly when the placeholder
occurrence count differs from the number of data keys, or some explicitly
given reducer key is missing from the placeholders or the data, or the
placeholder and data key sets are not mutually contained; reducer keys
missing from the other two sets are not an error but are silently given the
default reducer `int.__add__`, and `update` then applies that default
(integer addition on ints, regardless of the value's type) to such keys. -/
theorem traceWarningInit_spec (tks : List String)
    (data : List (String × PyVal)) (fns : List (String × Reducer)) :
    (isOkE (traceWarningInit tks data fns) = true ↔
      (tks.length = data.length ∧
       (∀ p ∈ fns, p.1 ∈ tks ∧ p.1 ∈ keysOf data) ∧
       (∀ k ∈ tks, k ∈ keysOf data) ∧
       (∀ k ∈ keysOf data, k ∈ tks))) ∧
    (∀ w, traceWarningInit tks data fns = .ok w →
      ∀ k, k ∈ tks → k ∉ keysOf fns →
        lookupFn w.update_fn k = some pyIntAdd) ∧
    (∀ w, traceWarningInit tks data fns = .ok w →
      ∀ k v old, k ∈ tks → k ∉ keysOf fns → lookupVal w.args_list k = some old →
        traceWarningUpdate w [(k, v)] = (pyIntAdd old v).map (fun nv =>
          { w with args_list := setVal w.args_list k nv, occurred := true })) := by
  have hok : ∀ w, traceWarningInit tks data fns = .ok w →
      w.update_fn = addDefaults (addDefaults fns tks) (keysOf data) := by
    intro w hw
    unfold traceWarningInit at hw
    split_ifs at hw
    cases hw
    rfl
  have hdefault : ∀ w, traceWarningInit tks data fns = .ok w →
      ∀ k, k ∈ tks → k ∉ keysOf fns →
        lookupFn w.update_fn k = some pyIntAdd := by
    intro w hw k hk hno
    rw [hok w hw]
    exact addDefaults_preserves (keysOf data) _ k pyIntAdd
      (addDefaults_default tks fns k hk hno)
  refine ⟨?_, hdefault, ?_⟩
  · unfold traceWarningInit
    split_ifs with h1 h2 h3 h4 <;> simp only [isOkE] <;>
      constructor <;> intro h <;>
      first
        | trivial
        | exact h.elim
        | exact (Bool.false_ne_true h).elim
        | exact ⟨h1, h2, h3, h4⟩
        | exact ⟨not_ne_iff.mp h1, h2, h3, h4⟩
        | exact (h1 h.1).elim
        | exact (h2 h.2.1).elim
        | exact (h3 h.2.2.1).elim
        | exact (h4 h.2.2.2).elim
  · intro w hw k v old hk hno hold
    have hfn := hdefault w hw k hk hno
    have hstep : traceWarningUpdateStep w k v = (pyIntAdd old v).map (fun nv =>
        { w with args_list := setVal w.args_list k nv, occurred := true }) := by
      rw [traceWarningUpdateStep, hold, hfn]
    have hsingle : traceWarningUpdate w [(k, v)] = traceWarningUpdateStep w k v := by
      unfold traceWarningUpdate
      cases hres : traceWarningUpdateStep w k v with
      | error e => simp [List.foldlM_cons, List.foldlM_nil, hres]
      | ok w2 => simp [List.foldlM_cons, List.foldlM_nil, hres]
    rw [hsingle, hstep]

/-- C8 (amended, witness): placeholder key list `["count"]`, data
`{"count": 0}`, no explicit reducer: construction succeeds, the key is
silently given the default `int.__add__`, and `update({"count": 5})` adds. -/
theorem traceWarningInit_spec_witness :
    isOkE (traceWarningInit ["count"] [("count", PyVal.int 0)] []) = true ∧
    traceWarningUpdate
      { text_keys := ["count"]
        args_list := [("count", PyVal.int 0)]
        update_fn := addDefaults (addDefaults [] ["count"]) ["count"]
        occurred := false } [("count", PyVal.int 5)] = .ok
      { text_keys := ["count"]
        args_list := [("count", PyVal.int 5)]
        update_fn := addDefaults (addDefaults [] ["count"]) ["count"]
        occurred := true } := by
  have h := traceWarningInit_spec ["count"] [("count", PyVal.int 0)] []
  have hokv : traceWarningInit ["count"] [("count", PyVal.int 0)] [] = .ok
      { text_keys := ["count"]
        args_list := [("count", PyVal.int 0)]
        update_fn := addDefaults (addDefaults [] ["count"]) ["count"]
        occurred := false } := rfl
  constructor
  · refine h.1.mpr ⟨rfl, ?_, ?_, ?_⟩
    · intro p hp
      cases hp
    · intro k hk
      simp [keysOf] at hk ⊢
      exact hk
    · intro k hk
      simp [keysOf] at hk ⊢
      exact hk
  · have hupd := h.2.2 _ hokv "count" (PyVal.int 5) (PyVal.int 0)
      (by simp) (by simp [keysOf]) rfl
    rw [hupd]
    rfl

/-- C9: `hexToIntStr` is total and touches only the six recognized args keys:
events without a dict `args` pass through unchanged; under a dict `args`,
every key outside `TS1..TS5, Power` keeps its value, a recognized key holding
a parseable string is rewritten to the decimal string of the parsed integer,
and a recognized key holding an unparseable string, a non-string value, or no
value at all is left exactly as it was; `name` and `ts` are never changed. -/
theorem hex_to_int_str_spec (e : NEvent) :
    ((hexToIntStr e).name = e.name ∧ (hexToIntStr e).ts = e.ts) ∧
    (e.args = none → hexToIntStr e = e) ∧
    (e.args = some .nondict → hexToIntStr e = e) ∧
    (∀ m, e.args = some (.dict m) →
      ∃ m2, (hexToIntStr e).args = some (.dict m2) ∧
        (∀ k, k ∉ hexArgKeys → m2 k = m k) ∧
        (∀ k, k ∈ hexArgKeys →
          (∀ s i, m k = some (.str s) → pyIntBase0 s = some i →
            m2 k = some (.str (toString i))) ∧
          (∀ s, m k = some (.str s) → pyIntBase0 s = none →
            m2 k = some (.str s)) ∧
          (∀ v, m k = some v → v.isStr = false → m2 k = some v) ∧
          (m k = none → m2 k = none))) := by
  refine ⟨?_, ?_, ?_, ?_⟩
  · unfold hexToIntStr
    match he : e.args with
    | some (.dict m) => exact ⟨rfl, rfl⟩
    | some .nondict => exact ⟨rfl, rfl⟩
    | none => exact ⟨rfl, rfl⟩
  · intro ha
    unfold hexToIntStr
    rw [ha]
  · intro ha
    unfold hexToIntStr
    rw [ha]
  · intro m ha
    refine ⟨fun k => if k ∈ hexArgKeys then hexConvVal (m k) else m k, ?_, ?_, ?_⟩
    · unfold hexToIntStr
      rw [ha]
    · intro k hk
      simp [hk]
    · intro k hk
      refine ⟨?_, ?_, ?_, ?_⟩
      · intro s i hs hi
        simp only [if_pos hk, hs, hexConvVal, hi]
      · intro s hs hi
        simp only [if_pos hk, hs, hexConvVal, hi]
      · intro v hv hstr
        cases v with
        | str s => simp [PyV.isStr] at hstr
        | other o => simp only [if_pos hk, hv, hexConvVal]
      · intro hnone
        simp only [if_pos hk, hnone, hexConvVal]

/-- C9 (witness): the S1 event with `TS1 = "0x10"`, a non-hex key and an
unparseable `Power` value: `TS1` becomes `"16"`, the rest is untouched. -/
theorem hex_to_int_str_spec_witness :
    argsAt (hexToIntStr
      { args := some (.dict (fun k =>
          if k = "TS1" then some (.str "0x10")
          else if k = "Power" then some (.str "umm")
          else if k = "jobhash" then some (.other 3) else none))
        name := "x", ts := 0 }) "TS1" = some (.str "16") ∧
    argsAt (hexToIntStr
      { args := some (.dict (fun k =>
          if k = "TS1" then some (.str "0x10")
          else if k = "Power" then some (.str "umm")
          else if k = "jobhash" then some (.other 3) else none))
        name := "x", ts := 0 }) "Power" = some (.str "umm") ∧
    argsAt (hexToIntStr
      { args := some (.dict (fun k =>
          if k = "TS1" then some (.str "0x10")
          else if k = "Power" then some (.str "umm")
          else if k = "jobhash" then some (.other 3) else none))
        name := "x", ts := 0 }) "jobhash" = some (.other 3) := by
  obtain ⟨-, -, -, hdict⟩ := hex_to_int_str_spec
    { args := some (.dict (fun k =>
        if k = "TS1" then some (.str "0x10")
        else if k = "Power" then some (.str "umm")
        else if k = "jobhash" then some (.other 3) else none))
      name := "x", ts := 0 }
  obtain ⟨m2, hm2, hout, hin⟩ := hdict _ rfl
  have hat : ∀ k, argsAt (hexToIntStr
      { args := some (.dict (fun k =>
          if k = "TS1" then some (.str "0x10")
          else if k = "Power" then some (.str "umm")
          else if k = "jobhash" then some (.other 3) else none))
        name := "x", ts := 0 }) k = m2 k := by
    intro k
    unfold argsAt
    rw [hm2]
  refine ⟨?_, ?_, ?_⟩
  · rw [hat]
    exact (hin "TS1" (by simp [hexArgKeys])).1 "0x10" 16 rfl (by rfl)
  · rw [hat]
    exact (hin "Power" (by simp [hexArgKeys])).2.1 "umm" rfl (by rfl)
  · rw [hat]
    exact hout "jobhash" (by simp [hexArgKeys])

theorem refinementDrain_fold (qs : List (ℤ × DeviceRankInfo))
    (acc : List MetaEvent) :
    qs.foldl (fun a q => a ++ gen_meta q.2.cpu ++ gen_meta q.2.acc) acc =
      acc ++ qs.foldr (fun q r => gen_meta q.2.cpu ++ gen_meta q.2.acc ++ r) [] := by
  induction qs generalizing acc with
  | nil => simp
  | cons q rest ih =>
      rw [List.foldl_cons, List.foldr_cons, ih]
      simp [List.append_assoc]

/-- C10: draining a not-yet-exported refinement context emits, per registered
device in registration order, the cpu and acc `process_name` /
`process_label` / `process_sort_index` metadata (plus the CollectiveBW
metadata when a "BW allreduce" counter was seen) and latches
`meta_exported`; draining again — and any drain of a latched context —
returns the empty list with the state unchanged, so every metadata event is
emitted at most once. -/
theorem refinementDrain_spec (s : RefinementState) :
    (s.meta_exported = false →
      (refinementDrain s).1 =
        s.queues.foldr (fun q r => gen_meta q.2.cpu ++ gen_meta q.2.acc ++ r) []
          ++ (if s.has_coll_bw then collBwMeta else []) ∧
      (refinementDrain s).2.meta_exported = true) ∧
    (s.meta_exported = true → refinementDrain s = ([], s)) ∧
    refinementDrain (refinementDrain s).2 = ([], (refinementDrain s).2) := by
  refine ⟨?_, ?_, ?_⟩
  · intro hexp
    unfold refinementDrain
    rw [hexp]
    simp only [Bool.false_eq_true, if_false]
    exact ⟨by rw [refinementDrain_fold, List.nil_append], trivial⟩
  · intro hexp
    unfold refinementDrain
    rw [hexp]
    simp
  · unfold refinementDrain
    by_cases hexp : s.meta_exported
    · simp [hexp]
    · simp [hexp]

/-- C10 (witness): a context with one registered device and a seen
"BW allreduce" counter emits its six device metadata events plus the two
CollectiveBW events on the first drain; the second drain emits nothing. -/
theorem refinementDrain_spec_witness :
    (refinementDrain ⟨false, true, [(4, ⟨⟨"cpu4", 1, 1004, 0⟩, ⟨"acc4", 1, 4, 1⟩⟩)]⟩).1 =
      gen_meta ⟨"cpu4", 1, 1004, 0⟩ ++ gen_meta ⟨"acc4", 1, 4, 1⟩ ++ collBwMeta ∧
    (refinementDrain
      (refinementDrain ⟨false, true, [(4, ⟨⟨"cpu4", 1, 1004, 0⟩, ⟨"acc4", 1, 4, 1⟩⟩)]⟩).2).1 = [] := by
  have h := refinementDrain_spec ⟨false, true, [(4, ⟨⟨"cpu4", 1, 1004, 0⟩, ⟨"acc4", 1, 4, 1⟩⟩)]⟩
  constructor
  · rw [(h.1 rfl).1]
    simp
  · rw [h.2.2]

end AiuTrace
